import Mathlib

/-!
# Verification of babel-plugin-globals

A shallow embedding of the source files of `babel-plugin-globals` and proofs
about them.  The repository contains several historical variants of the
plugin; we embed each variant the claims refer to in its own namespace:

* `V1` — `src/index.js` (the babel-6 plugin at the repository root);
* `V2` — the first unit of `src/unnamed/part_000` (the variant with
  root-relative module paths, guarded `x = x || {}` namespace creation and
  the externals map; this is the variant the specification's component
  design describes);
* `V3` — the second unit of `src/unnamed/part_000` (the babel-5
  `babel.Transformer` variant whose `Program` visitor does not reset the
  per-file state).

Statements and expressions of the produced syntax trees are modelled by the
mutually inductive types `Expr` and `Stmt`; the Node `path` module functions
used by the plugin (`resolve`, `dirname`, `relative`, `extname`, `basename`,
`sep`) are modelled for POSIX separators on plain strings, which is how all
of the repository's tests exercise them.
-/

/-- A JavaScript value as far as the `filename === 'unknown'` strict-equality
check can observe it: `undefined`, `null`, or a string. -/
inductive JVal where
  | undef
  | null
  | str (s : String)
deriving DecidableEq

/-- An import specifier: `specifier.local.name`, `specifier.imported` (absent
on default specifiers) and whether it is an `ImportNamespaceSpecifier`. -/
structure ImportSpec where
  localName : String
  imported : Option String
  isNamespace : Bool
deriving DecidableEq

/-- A named-export specifier: `specifier.local` (absent for some re-export
forms) and `specifier.exported.name`. -/
structure NamedSpec where
  localName : Option String
  exported : String
deriving DecidableEq

/-- A declaration attached to an export: a `VariableDeclaration` with its
declarator names, or another declaration (function/class) with its id name. -/
inductive Decl where
  | varD (names : List String)
  | fnD (name : String)
deriving DecidableEq

mutual
/-- Babel expressions, as built by the `t.*` builders the plugin uses.
`ident` carries the full (possibly dotted) name exactly as the plugin passes
it to `t.identifier`. -/
inductive Expr where
  | ident (name : String)
  | thisE
  | strLit (s : String)
  | numLit (n : Nat)
  | objectE
  | member (obj : Expr) (prop : Expr) (computed : Bool)
  | logical (op : String) (left : Expr) (right : Expr)
  | assign (target : Expr) (value : Expr)
  | call (callee : Expr) (args : List Expr)
  | functionE (params : List String) (body : List Stmt)

/-- Top-level statements.  Output statements (`exprStmt`, `varDecl`,
`ofDecl`) and the module constructs the visitors replace (`importC`,
`exportAllC`, `exportDefaultC`, `exportNamedC`). -/
inductive Stmt where
  | exprStmt (e : Expr)
  | varDecl (localName : String) (init : Expr)
  | ofDecl (d : Decl)
  | importC (specifiers : List ImportSpec) (source : String)
  | exportAllC (source : Option String)
  | exportDefaultC (declaration : Expr)
  | exportNamedC (declaration : Option Decl) (specifiers : List NamedSpec)
      (source : Option String)
end

/-! ## String and path utilities (model of the Node `path` module, POSIX) -/

/-- Split a character list at every occurrence of `c` (like
`String.prototype.split` with a one-character separator). -/
def splitChar (c : Char) : List Char → List (List Char)
  | [] => [[]]
  | x :: xs =>
    let r := splitChar c xs
    if x = c then [] :: r
    else
      match r with
      | [] => [[x]]
      | h :: t => (x :: h) :: t

/-- Model of `s.split(path.sep)` with `path.sep = '/'`. -/
def splitOnSlash (s : String) : List String :=
  (splitChar '/' s.data).map String.mk

/-- Model of `s.split('.')`. -/
def splitOnDot (s : String) : List String :=
  (splitChar '.' s.data).map String.mk

/-- Model of `Array.prototype.join(sep)`. -/
def joinSep (sep : String) : List String → String
  | [] => ""
  | [x] => x
  | x :: y :: xs => x ++ sep ++ joinSep sep (y :: xs)

/-- Index of the last occurrence of `'.'` in a character list. -/
def lastDotIdx : List Char → Option Nat
  | [] => none
  | x :: xs =>
    match lastDotIdx xs with
    | some i => some (i + 1)
    | none => if x = '.' then some 0 else none

/-- Model of `path.extname`: the suffix of the basename from its last dot, with a dot
in position zero (a leading-dot file) not counting as an extension. -/
def extname (s : String) : String :=
  let b := ((splitChar '/' s.data).getLast?).getD []
  match lastDotIdx b with
  | none => ""
  | some 0 => ""
  | some i => String.mk (b.drop i)

/-- Model of `path.basename(s, ext)`: the last path segment, with the suffix `ext`
removed when it is a proper suffix of the segment. -/
def basenameExt (s : String) (ext : String) : String :=
  let b := ((splitChar '/' s.data).getLast?).getD []
  let e := ext.data
  if e ≠ [] ∧ b ≠ e ∧ e.length ≤ b.length ∧ b.drop (b.length - e.length) = e then
    String.mk (b.take (b.length - e.length))
  else String.mk b

/-- Fuel-indexed loop of `removeExtensions`; the fuel (the initial string
length) dominates the number of iterations because each stripped extension
shortens the string. -/
def removeExtensionsFuel : Nat → String → String
  | 0, s => s
  | fuel + 1, s =>
    let ext := extname s
    if ext = "" then s else removeExtensionsFuel fuel (basenameExt s ext)

/-- Model of `removeExtensions` (identical in `src/index.js` and the `part_000`
variants): repeatedly strip `path.extname` via `path.basename` until no
extension remains. -/
def removeExtensions (s : String) : String :=
  removeExtensionsFuel s.data.length s

/-- Model of `path.dirname`. -/
def pathDirname (s : String) : String :=
  let segs := splitOnSlash s
  if segs.length ≤ 1 then "."
  else
    let d := joinSep "/" segs.dropLast
    if d = "" then "/" else d

/-- Normalize path segments: drop empty and `"."` segments, let `".."` pop
the previous segment. -/
def normalizeSegs (segs : List String) : List String :=
  segs.foldl
    (fun acc seg =>
      if seg = "" ∨ seg = "." then acc
      else if seg = ".." then acc.dropLast
      else acc ++ [seg]) []

/-- Model of `path.resolve(dir, p)` for an absolute `dir` (every call site of the
plugin resolves against `path.dirname` of an absolute filename or against
the process root). -/
def pathResolve (dir : String) (p : String) : String :=
  let s := if p.data.head? = some '/' then p else dir ++ "/" ++ p
  "/" ++ joinSep "/" (normalizeSegs (splitOnSlash s))

/-- Length of the common prefix of two segment lists. -/
def commonPrefixLen : List String → List String → Nat
  | x :: xs, y :: ys => if x = y then commonPrefixLen xs ys + 1 else 0
  | _, _ => 0

/-- Model of `path.relative(from, to)` for two absolute paths. -/
def pathRelative (fromP : String) (toP : String) : String :=
  let fa := normalizeSegs (splitOnSlash fromP)
  let ta := normalizeSegs (splitOnSlash toP)
  let common := commonPrefixLen fa ta
  joinSep "/" (List.replicate (fa.length - common) ".." ++ ta.drop common)

/-- Model of `s.substr(0, n)`. -/
def strTake (s : String) (n : Nat) : String :=
  String.mk (s.data.take n)

/-! ## Shared plugin helpers -/

/-- The error message thrown by `assertFilenameRequired`. -/
def filenameRequiredMsg : String :=
  "The babel  requires that filename be given"

/-- Model of `assertFilenameRequired` (identical in every variant): throw exactly
when the filename is the literal string `'unknown'` (babel's default for an
absent filename). -/
def assertFilenameRequired (filename : String) : Except String Unit :=
  if filename = "unknown" then .error filenameRequiredMsg else .ok ()

/-- Model of `assertFilenameRequired` at the precision of JavaScript strict equality:
`undefined`, `null` and every string other than `'unknown'` pass the
`filename === 'unknown'` check. -/
def assertFilenameRequiredJV (filename : JVal) : Except String Unit :=
  if filename = JVal.str "unknown" then .error filenameRequiredMsg else .ok ()

/-- Model of `getFilenameNoExt` (shared by `src/index.js` and the first `part_000`
unit): memoize `removeExtensions filename` in `filenameNoExtCache`; the
`if (!filenameNoExtCache)` test is JavaScript truthiness, so an absent or
empty cache recomputes. -/
def getFilenameNoExt (cache : Option String) (filename : String) :
    Except String (Option String × String) :=
  if cache.getD "" = "" then do
    assertFilenameRequired filename
    let r := removeExtensions filename
    .ok (some r, r)
  else .ok (cache, cache.getD "")

/-- Model of `id.name` of an expression node: the name of an identifier, and the
JavaScript `undefined` property key for any other node. -/
def idName : Expr → String
  | .ident n => n
  | _ => "undefined"

/-- The closure the `Program` visitors build around the file body:
`(function () { body }).call(this)`. -/
def wrapStmt (body : List Stmt) : Stmt :=
  .exprStmt (.call
    (.member (.functionE [] body) (.ident "call") false)
    [.ident "this"])

/-- Recover the wrapped body from a `Program` replacement of the shape
produced by `wrapStmt`. -/
def unwrapProgram : List Stmt → Option (List Stmt)
  | [.exprStmt (.call
      (.member (.functionE [] body) (.ident "call") false)
      [.ident "this"])] => some body
  | _ => none

/-- Does the top-level statement list contain an import/export construct? -/
def hasModuleConstruct (body : List Stmt) : Bool :=
  body.any fun s =>
    match s with
    | .importC .. => true
    | .exportAllC .. => true
    | .exportDefaultC .. => true
    | .exportNamedC .. => true
    | _ => false

/-! ## V2 — the first unit of `src/unnamed/part_000`

The variant with root-relative module paths, guarded namespace creation and
the externals map; this is the implementation the specification's component
design (Path Namer / Namespace Builder / Statement Rewriter / Program
Wrapper) describes. -/

namespace V2

/-- The per-file options and file identity the visitors read from `state`:
`state.file.opts.filename`, `state.opts.globalName`, `state.opts.externals`,
and the process working directory `process.cwd()`. -/
structure Ctx where
  filename : String
  cwd : String
  globalName : String
  externals : List (String × String)
deriving DecidableEq

/-- The module-level mutable state: `createdGlobals` (an object used as a
string-keyed set) and `filenameNoExtCache`. -/
structure St where
  created : List String
  cache : Option String
deriving DecidableEq

/-- A namespace reference as built by `buildNamespaceReferences`: its dotted
id string and its expression. -/
structure Ref where
  id : String
  expr : Expr

/-- Model of `getRootRelativePath`: resolve the module path against the directory of
the current file, then make it relative to `process.cwd()`. -/
def getRootRelativePath (ctx : Ctx) (filePath : String) : Except String String := do
  assertFilenameRequired ctx.filename
  let fp := pathResolve (pathDirname ctx.filename) filePath
  .ok (pathRelative ctx.cwd fp)

/-- Model of `buildModuleIdentifier`: `this`, the global name, each root-relative
path segment, then the (truthy) exported name, joined with dots into one
identifier. -/
def buildModuleIdentifier (ctx : Ctx) (filePath : String) (name : Option String) :
    Except String Expr := do
  let relativePath ← getRootRelativePath ctx filePath
  let splitPath := splitOnSlash relativePath
  let idSegments := ["this", ctx.globalName] ++ splitPath ++
    (match name with
     | some n => if n = "" then [] else [n]
     | none => [])
  .ok (.ident (joinSep "." idSegments))

/-- Model of `buildExternalIdentifier`:
`this.<moduleName>["default"] || this.<moduleName>`. -/
def buildExternalIdentifier (moduleName : String) : Expr :=
  let baseExpr := Expr.member .thisE (.ident moduleName) false
  let defaultPropExpr := Expr.member baseExpr (.strLit "default") true
  .logical "||" defaultPropExpr baseExpr

/-- Model of `getGlobalIdentifier`: short-circuit to `buildExternalIdentifier` when
the raw path has a truthy entry in the externals map, else build the
path-derived module identifier.  The wildcard flag is accepted and unused,
as in the source. -/
def getGlobalIdentifier (ctx : Ctx) (filePath : String) (name : Option String)
    (_isWildcard : Bool) : Except String Expr :=
  match ctx.externals.lookup filePath with
  | some ext =>
    if ext = "" then buildModuleIdentifier ctx filePath name
    else .ok (buildExternalIdentifier ext)
  | none => buildModuleIdentifier ctx filePath name

/-- Model of `buildNamespaceReferences`: split the root-relative module path on the
path separator, drop the final (module) segment, and turn each directory
level into a guarded initialization `ref = ref || {}`, keeping for each
level its dotted id. -/
def buildNamespaceReferences (modulePath : String) (globalName : String) : List Ref :=
  let namespacePaths := (splitOnSlash modulePath).dropLast
  let base : Ref := ⟨"this." ++ globalName, .member .thisE (.ident globalName) false⟩
  let references := namespacePaths.foldl
    (fun refs nextPath =>
      let parentRef := (refs.getLast?).getD base
      refs ++ [⟨parentRef.id ++ "." ++ nextPath,
               .member parentRef.expr (.ident nextPath) false⟩])
    []
  references.map fun ref =>
    ⟨ref.id, .assign ref.expr (.logical "||" ref.expr .objectE)⟩

/-- The state-passing core of `addNamespaceExpressions`, operating on the
already root-relative path: keep the references whose ids are not yet in
`createdGlobals`, append their statements to the nodes, and record their
ids. -/
def ensureCreated (globalName : String) (relativePath : String)
    (created : List String) (nodes : List Stmt) : List String × List Stmt :=
  let refs := buildNamespaceReferences relativePath globalName
  let uncreatedRefs := refs.filter fun ref => !(created.contains ref.id)
  let statements := uncreatedRefs.map fun ref => Stmt.exprStmt ref.expr
  (created ++ uncreatedRefs.map (fun ref => ref.id), nodes ++ statements)

/-- Model of `addNamespaceExpressions`: resolve the module path to a root-relative
path, then run the namespace-creation core on it. -/
def addNamespaceExpressions (ctx : Ctx) (filePath : String)
    (created : List String) (nodes : List Stmt) :
    Except String (List String × List Stmt) := do
  let relativePath ← getRootRelativePath ctx filePath
  .ok (ensureCreated ctx.globalName relativePath created nodes)

/-- Model of `assignToGlobal` of this variant: if `createdGlobals` already has the
id's name the call returns without emitting anything; otherwise it records
the name and appends the assignment statement. -/
def assignToGlobal (created : List String) (nodes : List Stmt)
    (id : Expr) (expression : Expr) : List String × List Stmt :=
  if created.contains (idName id) then (created, nodes)
  else (created ++ [idName id], nodes ++ [.exprStmt (.assign id expression)])

/-- Model of `ImportDeclaration`: one `var local = <global read>` per specifier, the
source path stripped of its extensions; the per-file state is untouched. -/
def importDeclaration (ctx : Ctx) (st : St) (specifiers : List ImportSpec)
    (source : String) : Except String (St × List Stmt) := do
  let replacements ← specifiers.foldlM
    (fun acc spec => do
      let id ← getGlobalIdentifier ctx (removeExtensions source)
        spec.imported spec.isNamespace
      .ok (acc ++ [Stmt.varDecl spec.localName id]))
    []
  .ok (st, replacements)

/-- Model of `assignDeclarationToGlobal`, inlined into the named-export handler:
assign one declared name to its global, threading the filename cache and
the created set. -/
def assignDeclarationToGlobal (ctx : Ctx) (cache : Option String)
    (created : List String) (nodes : List Stmt) (declName : String) :
    Except String (Option String × List String × List Stmt) := do
  let (cache', filenameNoExt) ← getFilenameNoExt cache ctx.filename
  let id ← getGlobalIdentifier ctx filenameNoExt (some declName) false
  let (created', nodes') := assignToGlobal created nodes id (.ident declName)
  .ok (cache', created', nodes')

/-- Model of `ExportDefaultDeclaration`: namespace creation for the file's path, then
the default assignment. -/
def exportDefaultDeclaration (ctx : Ctx) (st : St) (declaration : Expr) :
    Except String (St × List Stmt) := do
  let (cache', fileName) ← getFilenameNoExt st.cache ctx.filename
  let (created₁, repl₁) ← addNamespaceExpressions ctx fileName st.created []
  let id ← getGlobalIdentifier ctx fileName none false
  let (created₂, repl₂) := assignToGlobal created₁ repl₁ id declaration
  .ok (⟨created₂, cache'⟩, repl₂)

/-- Model of `ExportNamedDeclaration`: the declaration first (if any), then namespace
creation, then `moduleGlobal = {}`, then one assignment per declared name or
specifier. -/
def exportNamedDeclaration (ctx : Ctx) (st : St) (declaration : Option Decl)
    (specifiers : List NamedSpec) (source : Option String) :
    Except String (St × List Stmt) := do
  let (cache₀, fileName) ← getFilenameNoExt st.cache ctx.filename
  let repl₀ : List Stmt :=
    match declaration with
    | some d => [.ofDecl d]
    | none => []
  let (created₁, repl₁) ← addNamespaceExpressions ctx fileName st.created repl₀
  let id ← getGlobalIdentifier ctx fileName none false
  let (created₂, repl₂) := assignToGlobal created₁ repl₁ id .objectE
  match declaration with
  | some d =>
    let names :=
      match d with
      | .varD ns => ns
      | .fnD n => [n]
    let (cacheF, createdF, replF) ← names.foldlM
      (fun acc n => assignDeclarationToGlobal ctx acc.1 acc.2.1 acc.2.2 n)
      (cache₀, created₂, repl₂)
    .ok (⟨createdF, cacheF⟩, replF)
  | none =>
    let (cacheF, createdF, replF) ← specifiers.foldlM
      (fun acc spec => do
        let idToAssign ←
          match source with
          | some src => getGlobalIdentifier ctx src spec.localName false
          | none => .ok (Expr.ident spec.exported)
        let (cache', fileName') ← getFilenameNoExt acc.1 ctx.filename
        let id ← getGlobalIdentifier ctx fileName' (some spec.exported) false
        let (created', nodes') := assignToGlobal acc.2.1 acc.2.2 id idToAssign
        .ok (cache', created', nodes'))
      (cache₀, created₂, repl₂)
    .ok (⟨createdF, cacheF⟩, replF)

/-- Dispatch one top-level statement to its visitor; statements that are not
import/export constructs pass through unchanged.  `ExportAllDeclaration`
replaces the construct with nothing. -/
def handler (ctx : Ctx) (st : St) : Stmt → Except String (St × List Stmt)
  | .importC specifiers source => importDeclaration ctx st specifiers source
  | .exportAllC _ => .ok (st, [])
  | .exportDefaultC declaration => exportDefaultDeclaration ctx st declaration
  | .exportNamedC declaration specifiers source =>
    exportNamedDeclaration ctx st declaration specifiers source
  | s => .ok (st, [s])

/-- One file's transform: the `Program` visitor resets `createdGlobals` and
`filenameNoExtCache`, the construct visitors rewrite the body in source
order, and the rewritten body ends up inside the closure wrapper. -/
def transformFile (_st : St) (ctx : Ctx) (body : List Stmt) :
    Except String (St × List Stmt) := do
  let st₀ : St := ⟨[], none⟩
  let (st', stmts) ← body.foldlM
    (fun acc s => do
      let (stN, out) ← handler ctx acc.1 s
      .ok (stN, acc.2 ++ out))
    (st₀, [])
  .ok (st', [wrapStmt stmts])

end V2

/-! ## V1 — `src/index.js` (the plugin at the repository root) -/

namespace V1

/-- Model of `state.opts.globalName` of `src/index.js`: either a fixed root string or
a caller-supplied function from `(filePath, name, isWildcard)` to the whole
dotted path (the `state` argument of the JavaScript function carries no
further information our embedding needs). -/
inductive GlobalNameOpt where
  | str (s : String)
  | fn (f : String → Option String → Bool → String)

/-- The options and file identity the visitors read. -/
structure Ctx where
  filename : String
  globalName : GlobalNameOpt

/-- The module-level mutable state.  `createdGlobals` is a nested plain
object indexed by the middle keys of dotted global names; we represent that
tree by the set of key paths present in it, which the `createGlobal` walk
keeps prefix-closed. -/
structure St where
  created : List (List String)
  cache : Option String
deriving DecidableEq

/-- Is a JavaScript name argument truthy? -/
def nameTruthy : Option String → Bool
  | some n => n ≠ ""
  | none => false

/-- Model of `getGlobalIdentifier` of `src/index.js`: assert the filename, dispatch
on the type of `globalName`, append `'Named'` for named or wildcard
accesses, resolve the module path against the current file's directory and
keep only its last segment, then join everything into one dotted
identifier. -/
def getGlobalIdentifier (ctx : Ctx) (filePath : String) (name : Option String)
    (isWildcard : Bool) : Except String Expr := do
  assertFilenameRequired ctx.filename
  match ctx.globalName with
  | .fn f => .ok (.ident (f filePath name isWildcard))
  | .str g =>
    let globalName := if nameTruthy name || isWildcard then g ++ "Named" else g
    let fp := pathResolve (pathDirname ctx.filename) filePath
    let splitPath := splitOnSlash fp
    let moduleName := (splitPath.getLast?).getD ""
    .ok (.ident ("this." ++ globalName ++ "." ++ moduleName ++
      (match name with
       | some n => if n = "" then "" else "." ++ n
       | none => "")))

/-- The loop of `createGlobal`: walk the middle keys of the dotted name,
extending the created tree and emitting a plain `name = {}` statement for
each key path not present yet. -/
def createGlobalAux (created : List (List String)) (sofar : List String)
    (curName : String) : List String → List (List String) × List Stmt
  | [] => (created, [])
  | k :: rest =>
    let curName' := curName ++ "." ++ k
    let sofar' := sofar ++ [k]
    let (created₁, emitted) :=
      if created.contains sofar' then (created, ([] : List Stmt))
      else (created ++ [sofar'],
        [Stmt.exprStmt (.assign (.ident curName') .objectE)])
    let (created₂, stmts) := createGlobalAux created₁ sofar' curName' rest
    (created₂, emitted ++ stmts)

/-- Model of `createGlobal` of `src/index.js`: split the dotted name, start the
walked name at `this.<keys[1]>`, and create the keys from index 2 up to the
second-to-last. -/
def createGlobal (created : List (List String)) (name : String)
    (nodes : List Stmt) : List (List String) × List Stmt :=
  let keys := splitOnDot name
  let middle := (keys.drop 2).dropLast
  let start := "this." ++ (keys.get? 1).getD "undefined"
  let (created', stmts) := createGlobalAux created [] start middle
  (created', nodes ++ stmts)

/-- Model of `assignToGlobal` of `src/index.js`: create the namespace for the id's
name, then unconditionally append the assignment statement. -/
def assignToGlobal (created : List (List String)) (nodes : List Stmt)
    (id : Expr) (expression : Expr) : List (List String) × List Stmt :=
  let (created', nodes') := createGlobal created (idName id) nodes
  (created', nodes' ++ [.exprStmt (.assign id expression)])

/-- Model of `assignDeclarationToGlobal`: assign one declared name to its global. -/
def assignDeclarationToGlobal (ctx : Ctx) (cache : Option String)
    (created : List (List String)) (nodes : List Stmt) (declName : String) :
    Except String (Option String × List (List String) × List Stmt) := do
  let (cache', filenameNoExt) ← getFilenameNoExt cache ctx.filename
  let id ← getGlobalIdentifier ctx filenameNoExt (some declName) false
  let (created', nodes') := assignToGlobal created nodes id (.ident declName)
  .ok (cache', created', nodes')

/-- Model of `ImportDeclaration`: one `var local = <global read>` per specifier; the
per-file state is untouched, and a specifier-less import produces
nothing. -/
def importDeclaration (ctx : Ctx) (st : St) (specifiers : List ImportSpec)
    (source : String) : Except String (St × List Stmt) := do
  let replacements ← specifiers.foldlM
    (fun acc spec => do
      let id ← getGlobalIdentifier ctx (removeExtensions source)
        spec.imported spec.isNamespace
      .ok (acc ++ [Stmt.varDecl spec.localName id]))
    []
  .ok (st, replacements)

/-- Model of `ExportAllDeclaration` of `src/index.js`: the construct is replaced with
nothing, with no filename check. -/
def exportAllDeclaration (_ctx : Ctx) (st : St) (_source : Option String) :
    Except String (St × List Stmt) :=
  .ok (st, [])

/-- Model of `ExportDefaultDeclaration`: assign the declaration to the file's default
global. -/
def exportDefaultDeclaration (ctx : Ctx) (st : St) (declaration : Expr) :
    Except String (St × List Stmt) := do
  let (cache', fileName) ← getFilenameNoExt st.cache ctx.filename
  let id ← getGlobalIdentifier ctx fileName none false
  let (created', repl) := assignToGlobal st.created [] id declaration
  .ok (⟨created', cache'⟩, repl)

/-- The body of the specifier `forEach` callback of
`ExportNamedDeclaration`: compute the value to assign (a read from the
source module when the export has a `from` clause, else the local
identifier), then assign it to the exported name's global. -/
def exportSpecifierStep (ctx : Ctx) (source : Option String)
    (acc : Option String × List (List String) × List Stmt) (spec : NamedSpec) :
    Except String (Option String × List (List String) × List Stmt) := do
  let idToAssign ←
    match source with
    | some src => getGlobalIdentifier ctx src spec.localName false
    | none => .ok (Expr.ident spec.exported)
  let (cache', filenameNoExt) ← getFilenameNoExt acc.1 ctx.filename
  let id ← getGlobalIdentifier ctx filenameNoExt (some spec.exported) false
  let (created', nodes') := assignToGlobal acc.2.1 acc.2.2 id idToAssign
  .ok (cache', created', nodes')

/-- Model of `ExportNamedDeclaration`: the declaration first (if any) followed by one
assignment per declared name, else one assignment per specifier (reading
from the source module when the export has a `from` clause). -/
def exportNamedDeclaration (ctx : Ctx) (st : St) (declaration : Option Decl)
    (specifiers : List NamedSpec) (source : Option String) :
    Except String (St × List Stmt) := do
  match declaration with
  | some d =>
    let names :=
      match d with
      | .varD ns => ns
      | .fnD n => [n]
    let (cacheF, createdF, replF) ← names.foldlM
      (fun acc n => assignDeclarationToGlobal ctx acc.1 acc.2.1 acc.2.2 n)
      (st.cache, st.created, ([Stmt.ofDecl d] : List Stmt))
    .ok (⟨createdF, cacheF⟩, replF)
  | none =>
    let (cacheF, createdF, replF) ← specifiers.foldlM
      (exportSpecifierStep ctx source)
      (st.cache, st.created, ([] : List Stmt))
    .ok (⟨createdF, cacheF⟩, replF)

/-- Dispatch one top-level statement to its visitor; statements that are not
import/export constructs pass through unchanged. -/
def handler (ctx : Ctx) (st : St) : Stmt → Except String (St × List Stmt)
  | .importC specifiers source => importDeclaration ctx st specifiers source
  | .exportAllC source => exportAllDeclaration ctx st source
  | .exportDefaultC declaration => exportDefaultDeclaration ctx st declaration
  | .exportNamedC declaration specifiers source =>
    exportNamedDeclaration ctx st declaration specifiers source
  | s => .ok (st, [s])

/-- The `Program` visitor of `src/index.js`: reset `createdGlobals` and
`filenameNoExtCache`, and replace the body with the single closure
invocation. -/
def program (_st : St) (body : List Stmt) : St × List Stmt :=
  (⟨[], none⟩, [wrapStmt body])

/-- One file's transform: the `Program` visitor resets the per-file state,
the construct visitors rewrite the body in source order, and the rewritten
body ends up inside the closure wrapper. -/
def transformFile (_st : St) (ctx : Ctx) (body : List Stmt) :
    Except String (St × List Stmt) := do
  let st₀ : St := ⟨[], none⟩
  let (st', stmts) ← body.foldlM
    (fun acc s => do
      let (stN, out) ← handler ctx acc.1 s
      .ok (stN, acc.2 ++ out))
    (st₀, [])
  .ok (st', [wrapStmt stmts])

end V1

/-! ## V3 — the second unit of `src/unnamed/part_000`

The babel-5 `babel.Transformer('globals', ...)` variant.  Its `Program`
visitor does **not** reset `createdGlobals` or `filenameNoExtCache`, its
`getFilenameNoExt` caches `filename.substr(0, filename.length - 3)`, and its
`createGlobal`/`assignToGlobal` are identical to those of `src/index.js`. -/

namespace V3

/-- The options of this variant: `options.filename` and
`options._globalName` (a plain string). -/
structure Ctx where
  filename : String
  globalName : String
deriving DecidableEq

/-- Model of `getFilenameNoExt` of this variant: cache the filename with its last
three characters (the `.js` extension) chopped off. -/
def getFilenameNoExt (cache : Option String) (filename : String) :
    Except String (Option String × String) :=
  if cache.getD "" = "" then do
    assertFilenameRequired filename
    let r := strTake filename (filename.data.length - 3)
    .ok (some r, r)
  else .ok (cache, cache.getD "")

/-- Model of `getGlobalIdentifier` of this variant: append `'Named'` for named or
wildcard accesses, assert the filename, resolve the module path against the
current file's directory and keep only its last segment. -/
def getGlobalIdentifier (ctx : Ctx) (filePath : String) (name : Option String)
    (isWildcard : Bool) : Except String Expr := do
  let globalName :=
    if V1.nameTruthy name || isWildcard then ctx.globalName ++ "Named"
    else ctx.globalName
  assertFilenameRequired ctx.filename
  let fp := pathResolve (pathDirname ctx.filename) filePath
  let splitPath := splitOnSlash fp
  let moduleName := (splitPath.getLast?).getD ""
  .ok (.ident ("this." ++ globalName ++ "." ++ moduleName ++
    (match name with
     | some n => if n = "" then "" else "." ++ n
     | none => "")))

/-- The `Program` visitor of this variant: wrap the body in the closure but
leave `createdGlobals` and `filenameNoExtCache` untouched — there is no
per-file reset. -/
def program (st : V1.St) (body : List Stmt) : V1.St × List Stmt :=
  (st, [wrapStmt body])

/-- Model of `ExportDefaultDeclaration` of this variant, with the shared
`createGlobal`-based `assignToGlobal`. -/
def exportDefaultDeclaration (ctx : Ctx) (st : V1.St) (declaration : Expr) :
    Except String (V1.St × List Stmt) := do
  let (cache', fileName) ← getFilenameNoExt st.cache ctx.filename
  let id ← getGlobalIdentifier ctx fileName none false
  let (created', repl) := V1.assignToGlobal st.created [] id declaration
  .ok (⟨created', cache'⟩, repl)

/-- Transforming one file whose body is a single `export default`: the
`Program` visitor runs first (leaving the state untouched) and the export
visitor produces the replacement statements. -/
def transformExportDefaultFile (st : V1.St) (ctx : Ctx) (declaration : Expr) :
    V1.St × Except String (List Stmt) :=
  let (st₁, _) := program st []
  match exportDefaultDeclaration ctx st₁ declaration with
  | .ok (st₂, repl) => (st₂, .ok repl)
  | .error e => (st₁, .error e)

end V3

/-! ## The `transformOnlyModules` escape hatch -/

/-- Modelled from the spec: the `transformOnlyModules` option.  The variant
implementing it is not under `src/` — only its test
(`testTransformOnlyModules` in the third unit of `src/unnamed/part_001`)
and the option's description survive there.  Per the spec's external
interface section, when the option is true a file containing no
import/export construct is left byte-identical (the `Program` visitor
applies no closure wrapping and leaves the statement list unchanged);
otherwise the `Program` visitor behaves as in the variants under `src/`,
resetting the per-file state and wrapping the body. -/
def programTransformOnlyModules (transformOnlyModules : Bool) (st : V2.St)
    (body : List Stmt) : V2.St × List Stmt :=
  if transformOnlyModules && !hasModuleConstruct body then (st, body)
  else (⟨[], none⟩, [wrapStmt body])

/-! ## Namespace chains

The namespace-creation run of `V2.ensureCreated` is characterised through
*chains*: the nonempty prefixes of a module path's directory-segment list.
`idOfChain` and `exprOfChain` are the dotted id and the member expression
`buildNamespaceReferences` associates with a chain. -/

/-- The directory-segment chain of a root-relative module path: the split
path with the final (module) segment popped. -/
def chainOf (p : String) : List String :=
  (splitOnSlash p).dropLast

/-- The dotted id of a chain under a namespace root. -/
def idOfChain (g : String) (c : List String) : String :=
  c.foldl (fun a s => a ++ "." ++ s) ("this." ++ g)

/-- The base member expression `this.<globalName>`. -/
def nsBaseExpr (g : String) : Expr :=
  .member .thisE (.ident g) false

/-- The member expression of a chain. -/
def exprOfChain (g : String) (c : List String) : Expr :=
  c.foldl (fun e s => .member e (.ident s) false) (nsBaseExpr g)

/-- The raw (pre-assignment) reference of a chain. -/
def rawRefOfChain (g : String) (c : List String) : V2.Ref :=
  ⟨idOfChain g c, exprOfChain g c⟩

/-- The guarded namespace-initialization expression of a chain:
`chain = chain || {}`. -/
def guardExpr (g : String) (c : List String) : Expr :=
  .assign (exprOfChain g c) (.logical "||" (exprOfChain g c) .objectE)

/-- The guarded namespace-initialization statement of a chain. -/
def guardStmt (g : String) (c : List String) : Stmt :=
  .exprStmt (guardExpr g c)

/-- The reference of a chain after `buildNamespaceReferences` has mapped it
to its guarded assignment. -/
def nsRefOfChain (g : String) (c : List String) : V2.Ref :=
  ⟨idOfChain g c, guardExpr g c⟩

/-- The nonempty prefixes of a chain, shortest first. -/
def prefixesOf (c : List String) : List (List String) :=
  (List.range c.length).map fun k => c.take (k + 1)

/-- Run a sequence of namespace-creation requests (root-relative module
paths) through `V2.ensureCreated`, threading the created set and the
accumulated statements, both starting empty. -/
def runAdds (g : String) (paths : List String) : List String × List Stmt :=
  paths.foldl (fun st p => V2.ensureCreated g p st.1 st.2) ([], [])

/-- A chain is dot-free when none of its segments contains a dot (the
spec's Global Paths are sequences of identifier-safe segments). -/
def SegsOK (c : List String) : Prop :=
  ∀ s ∈ c, ('.' : Char) ∉ s.data

/-- Extract the identifier segments of a static member-expression chain. -/
def memberChainSegs : Expr → List String
  | .member e (.ident s) false => memberChainSegs e ++ [s]
  | _ => []

/-- Dot-join of character lists: each segment preceded by a dot. -/
def dotJoinL : List (List Char) → List Char
  | [] => []
  | s :: rest => '.' :: s ++ dotJoinL rest

/-- The chains whose references survive the created-set filter of one
`ensureCreated` call. -/
def newChains (g : String) (p : String) (created : List String) :
    List (List String) :=
  (prefixesOf (chainOf p)).filter fun c => !(created.contains (idOfChain g c))

/-- The ghost chain trace of `runAdds`: the chains whose initialization
statements have been emitted, in emission order. -/
def createdChains (g : String) (paths : List String) : List (List String) :=
  paths.foldl (fun S p => S ++ newChains g p (S.map (idOfChain g))) []

/-- Project a transform result onto the names of its top-level assignment
targets (used to separate concrete outputs). -/
def assignTargets : Except String (List Stmt) → List String
  | .error e => [e]
  | .ok l => l.map fun s =>
      match s with
      | .exprStmt (.assign (.ident n) _) => n
      | _ => ""

instance (c : List String) : Decidable (SegsOK c) := by
  unfold SegsOK
  infer_instance

theorem idOfChain_append (g : String) (d : List String) (s : String) :
    idOfChain g (d ++ [s]) = idOfChain g d ++ "." ++ s := by
  simp [idOfChain, List.foldl_append]

theorem exprOfChain_append (g : String) (d : List String) (s : String) :
    exprOfChain g (d ++ [s]) = .member (exprOfChain g d) (.ident s) false := by
  simp [exprOfChain, List.foldl_append]

theorem memberChainSegs_exprOfChain (g : String) (c : List String) :
    memberChainSegs (exprOfChain g c) = g :: c := by
  induction c using List.reverseRecOn with
  | nil => rfl
  | append_singleton d s ih =>
    rw [exprOfChain_append]
    simp [memberChainSegs, ih]

theorem exprOfChain_inj {g : String} {c c' : List String}
    (h : exprOfChain g c = exprOfChain g c') : c = c' := by
  have := congrArg memberChainSegs h
  rw [memberChainSegs_exprOfChain, memberChainSegs_exprOfChain] at this
  exact List.cons_injective.eq_iff.mp this

theorem dotJoinL_append (l l' : List (List Char)) :
    dotJoinL (l ++ l') = dotJoinL l ++ dotJoinL l' := by
  induction l with
  | nil => rfl
  | cons s rest ih => simp [dotJoinL, ih]

theorem idOfChain_foldl_data (c : List String) :
    ∀ init : String,
      (c.foldl (fun a s => a ++ "." ++ s) init).data =
        init.data ++ dotJoinL (c.map String.data) := by
  induction c with
  | nil => intro init; simp [dotJoinL]
  | cons s rest ih =>
    intro init
    have h := ih (init ++ "." ++ s)
    simp only [List.foldl_cons, List.map_cons, dotJoinL]
    rw [h]
    simp [String.data_append]

theorem idOfChain_data (g : String) (c : List String) :
    (idOfChain g c).data = ("this." ++ g).data ++ dotJoinL (c.map String.data) :=
  idOfChain_foldl_data c ("this." ++ g)

/-- Cutting two lists at the first occurrence of a character absent from
both left parts is unambiguous. -/
theorem cut_at_first_mem {ch : Char} :
    ∀ {s s' r r' : List Char}, ch ∉ s → ch ∉ s' →
      s ++ ch :: r = s' ++ ch :: r' → s = s' ∧ r = r'
  | [], [], _, _, _, _, h => by simpa using h
  | [], x :: xs, _, _, hs, hs', h => by
    simp only [List.nil_append, List.cons_append, List.cons.injEq] at h
    exact absurd (h.1 ▸ List.mem_cons_self x xs) hs'
  | x :: xs, [], _, _, hs, hs', h => by
    simp only [List.nil_append, List.cons_append, List.cons.injEq] at h
    exact absurd (h.1.symm ▸ List.mem_cons_self x xs) hs
  | x :: xs, y :: ys, _, _, hs, hs', h => by
    simp only [List.cons_append, List.cons.injEq] at h
    have := cut_at_first_mem (fun hm => hs (List.mem_cons_of_mem x hm))
      (fun hm => hs' (List.mem_cons_of_mem y hm)) h.2
    exact ⟨by rw [h.1, this.1], this.2⟩

/-- Dot-join is injective on lists of dot-free segments. -/
theorem dotJoinL_inj :
    ∀ {l l' : List (List Char)},
      (∀ s ∈ l, ('.' : Char) ∉ s) → (∀ s ∈ l', ('.' : Char) ∉ s) →
      dotJoinL l = dotJoinL l' → l = l'
  | [], [], _, _, _ => rfl
  | [], s :: rest, _, _, h => by simp [dotJoinL] at h
  | s :: rest, [], _, _, h => by simp [dotJoinL] at h
  | s :: rest, s' :: rest', hl, hl', h => by
    simp only [dotJoinL, List.cons_append, List.cons.injEq, true_and] at h
    have hs : ('.' : Char) ∉ s := hl s (List.mem_cons_self s rest)
    have hs' : ('.' : Char) ∉ s' := hl' s' (List.mem_cons_self s' rest')
    have htail : ∀ a ∈ rest, ('.' : Char) ∉ a :=
      fun a ha => hl a (List.mem_cons_of_mem s ha)
    have htail' : ∀ a ∈ rest', ('.' : Char) ∉ a :=
      fun a ha => hl' a (List.mem_cons_of_mem s' ha)
    match rest, rest', htail, htail', h with
    | [], [], _, _, h =>
      simp only [dotJoinL, List.append_nil] at h
      simp [h]
    | [], t :: ts, _, _, h =>
      exfalso
      simp only [dotJoinL, List.append_nil, List.cons_append] at h
      exact hs (h ▸ List.mem_append_right s' (List.mem_cons_self _ _))
    | t :: ts, [], _, _, h =>
      exfalso
      simp only [dotJoinL, List.append_nil, List.cons_append] at h
      exact hs' (h.symm ▸ List.mem_append_right s (List.mem_cons_self _ _))
    | t :: ts, t' :: ts', htail, htail', h =>
      simp only [dotJoinL, List.cons_append] at h
      obtain ⟨h1, h2⟩ := cut_at_first_mem hs hs' h
      have := @dotJoinL_inj (t :: ts) (t' :: ts') htail htail'
        (by simpa [dotJoinL] using h2)
      simp [h1, this]

/-- Dotted ids are injective on dot-free chains (for a fixed root). -/
theorem idOfChain_inj {g : String} {c c' : List String}
    (h : SegsOK c) (h' : SegsOK c') (he : idOfChain g c = idOfChain g c') :
    c = c' := by
  have hd := congrArg String.data he
  rw [idOfChain_data, idOfChain_data] at hd
  have hj : dotJoinL (c.map String.data) = dotJoinL (c'.map String.data) :=
    List.append_cancel_left hd
  have hm := dotJoinL_inj
    (fun s hs => by
      obtain ⟨a, ha, rfl⟩ := List.mem_map.mp hs
      exact h a ha)
    (fun s hs => by
      obtain ⟨a, ha, rfl⟩ := List.mem_map.mp hs
      exact h' a ha) hj
  exact List.map_injective_iff.mpr (fun a b hab =>
    congrArg String.mk hab) hm

theorem dotJoinL_ne_nil {l : List (List Char)} (h : l ≠ []) :
    dotJoinL l ≠ [] := by
  match l, h with
  | s :: rest, _ => simp [dotJoinL]

/-- Extending a chain strictly lengthens its dotted id. -/
theorem idOfChain_length_lt {g : String} {c c' : List String}
    (hp : c <+: c') (hne : c ≠ c') :
    (idOfChain g c).length < (idOfChain g c').length := by
  obtain ⟨e, rfl⟩ := hp
  have he : e ≠ [] := by
    intro h
    exact hne (by simp [h])
  have key : (idOfChain g (c ++ e)).data.length =
      (idOfChain g c).data.length + (dotJoinL (e.map String.data)).length := by
    rw [idOfChain_data, idOfChain_data, List.map_append, dotJoinL_append]
    simp [Nat.add_assoc, Nat.add_comm]
  have hpos : 0 < (dotJoinL (e.map String.data)).length := by
    have hne' : dotJoinL (e.map String.data) ≠ [] :=
      dotJoinL_ne_nil (by simpa using he)
    exact List.length_pos.mpr hne'
  have l1 : (idOfChain g c).length = (idOfChain g c).data.length := rfl
  have l2 : (idOfChain g (c ++ e)).length = (idOfChain g (c ++ e)).data.length := rfl
  omega

theorem prefixesOf_append (d : List String) (s : String) :
    prefixesOf (d ++ [s]) = prefixesOf d ++ [d ++ [s]] := by
  unfold prefixesOf
  rw [List.length_append, List.length_singleton, List.range_succ, List.map_append]
  congr 1
  · refine List.map_congr_left fun k hk => ?_
    have hk' : k < d.length := List.mem_range.mp hk
    exact List.take_append_of_le_length (by omega)
  · simp

theorem prefixesOf_getLast?_map (f : List String → V2.Ref) (d : List String) :
    (((prefixesOf d).map f).getLast?).getD (f []) = f d := by
  induction d using List.reverseRecOn with
  | nil => rfl
  | append_singleton e t _ =>
    rw [prefixesOf_append, List.map_append]
    simp

/-- The fold of `buildNamespaceReferences` builds exactly one raw reference
per nonempty chain prefix, shortest first. -/
theorem refsFold_eq (g : String) (d : List String) :
    d.foldl
      (fun refs nextPath =>
        let parentRef := (refs.getLast?).getD
          ⟨"this." ++ g, .member .thisE (.ident g) false⟩
        refs ++ [⟨parentRef.id ++ "." ++ nextPath,
                 .member parentRef.expr (.ident nextPath) false⟩])
      ([] : List V2.Ref) = (prefixesOf d).map (rawRefOfChain g) := by
  induction d using List.reverseRecOn with
  | nil => rfl
  | append_singleton e t ih =>
    rw [List.foldl_append, ih, List.foldl_cons, List.foldl_nil,
      prefixesOf_append, List.map_append]
    dsimp only
    have hbase : (⟨"this." ++ g, .member .thisE (.ident g) false⟩ : V2.Ref) =
        rawRefOfChain g [] := rfl
    rw [hbase, prefixesOf_getLast?_map (rawRefOfChain g) e]
    have helem : (⟨(rawRefOfChain g e).id ++ "." ++ t,
        .member (rawRefOfChain g e).expr (.ident t) false⟩ : V2.Ref) =
        rawRefOfChain g (e ++ [t]) := by
      unfold rawRefOfChain
      rw [idOfChain_append, exprOfChain_append]
    rw [helem]
    simp

/-- Model of `buildNamespaceReferences` produces exactly the guarded references of
the nonempty prefixes of the path's directory chain. -/
theorem buildNamespaceReferences_eq (g : String) (p : String) :
    V2.buildNamespaceReferences p g = (prefixesOf (chainOf p)).map (nsRefOfChain g) := by
  unfold V2.buildNamespaceReferences
  dsimp only
  rw [show (splitOnSlash p).dropLast = chainOf p from rfl]
  rw [refsFold_eq g (chainOf p)]
  rw [List.map_map]
  refine List.map_congr_left fun c _ => rfl

/-- One `ensureCreated` call appends exactly the ids and the guarded
statements of the not-yet-created chain prefixes, in chain order. -/
theorem ensureCreated_eq (g : String) (p : String) (created : List String)
    (nodes : List Stmt) :
    V2.ensureCreated g p created nodes =
      (created ++ (newChains g p created).map (idOfChain g),
       nodes ++ (newChains g p created).map (guardStmt g)) := by
  unfold V2.ensureCreated newChains
  dsimp only
  rw [buildNamespaceReferences_eq, List.filter_map, List.map_map, List.map_map]
  rfl

theorem createdChains_concat (g : String) (ps : List String) (p : String) :
    createdChains g (ps ++ [p]) =
      createdChains g ps ++
        newChains g p ((createdChains g ps).map (idOfChain g)) := by
  unfold createdChains
  rw [List.foldl_append, List.foldl_cons, List.foldl_nil]

/-- Model of `runAdds` is fully described by its ghost chain trace: the created set
is the trace's ids and the emitted statements are the trace's guarded
initializations, in order. -/
theorem runAdds_eq (g : String) (paths : List String) :
    runAdds g paths =
      ((createdChains g paths).map (idOfChain g),
       (createdChains g paths).map (guardStmt g)) := by
  induction paths using List.reverseRecOn with
  | nil => rfl
  | append_singleton ps p ih =>
    unfold runAdds at ih ⊢
    rw [List.foldl_append, List.foldl_cons, List.foldl_nil, ih,
      createdChains_concat]
    rw [ensureCreated_eq]
    simp

theorem mem_prefixesOf {c d : List String} :
    c ∈ prefixesOf d ↔ ∃ k, k < d.length ∧ c = d.take (k + 1) := by
  unfold prefixesOf
  simp only [List.mem_map, List.mem_range]
  exact ⟨fun ⟨k, hk, he⟩ => ⟨k, hk, he.symm⟩, fun ⟨k, hk, he⟩ => ⟨k, hk, he.symm⟩⟩

theorem prefixesOf_ne_nil {c d : List String} (hc : c ∈ prefixesOf d) : c ≠ [] := by
  obtain ⟨k, hk, rfl⟩ := mem_prefixesOf.mp hc
  have : (d.take (k + 1)).length = k + 1 := by
    rw [List.length_take]
    omega
  intro hnil
  rw [hnil] at this
  simp at this

theorem prefixesOf_segs {c d : List String} (hc : c ∈ prefixesOf d)
    (hd : SegsOK d) : SegsOK c := by
  obtain ⟨k, _, rfl⟩ := mem_prefixesOf.mp hc
  exact fun s hs => hd s (List.take_subset (k + 1) d hs)

theorem prefixesOf_pairwise (d : List String) :
    (prefixesOf d).Pairwise fun a b => a <+: b ∧ a.length < b.length := by
  unfold prefixesOf
  rw [List.pairwise_map]
  refine (List.pairwise_lt_range d.length).imp_of_mem ?_
  intro k k' hk hk' hlt
  have hkn : k < d.length := List.mem_range.mp hk
  have hkn' : k' < d.length := List.mem_range.mp hk'
  constructor
  · have := List.take_prefix (k + 1) (d.take (k' + 1))
    rwa [List.take_take, Nat.min_eq_left (by omega)] at this
  · rw [List.length_take, List.length_take]
    omega

theorem newChains_pairwise (g : String) (p : String) (created : List String) :
    (newChains g p created).Pairwise fun a b => a <+: b ∧ a.length < b.length :=
  (prefixesOf_pairwise (chainOf p)).sublist (List.filter_sublist _)

theorem newChains_ids_nodup (g : String) (p : String) (created : List String) :
    ((newChains g p created).map (idOfChain g)).Nodup := by
  refine List.Pairwise.map _ ?_ (newChains_pairwise g p created)
  intro a b hab he
  have hne : a ≠ b := by
    intro hq
    rw [hq] at hab
    omega
  have := @idOfChain_length_lt g a b hab.1 hne
  rw [he] at this
  omega

theorem newChains_not_created {g : String} {p : String} {created : List String}
    {c : List String} (hc : c ∈ newChains g p created) :
    idOfChain g c ∉ created := by
  have := (List.mem_filter.mp hc).2
  simp at this
  exact this

theorem newChains_sub {g : String} {p : String} {created : List String}
    {c : List String} (hc : c ∈ newChains g p created) :
    c ∈ prefixesOf (chainOf p) :=
  (List.mem_filter.mp hc).1

theorem not_created_mem {g : String} {p : String} {created : List String}
    {c : List String} (hc : c ∈ prefixesOf (chainOf p))
    (hn : idOfChain g c ∉ created) : c ∈ newChains g p created := by
  refine List.mem_filter.mpr ⟨hc, ?_⟩
  simpa using hn

theorem createdChains_segs {g : String} {paths : List String}
    (h : ∀ p ∈ paths, SegsOK (chainOf p)) :
    ∀ c ∈ createdChains g paths, SegsOK c := by
  induction paths using List.reverseRecOn with
  | nil => intro c hc; simp [createdChains] at hc
  | append_singleton ps p ih =>
    intro c hc
    rw [createdChains_concat] at hc
    rcases List.mem_append.mp hc with hc | hc
    · exact ih (fun q hq => h q (List.mem_append_left _ hq)) c hc
    · exact prefixesOf_segs (newChains_sub hc)
        (h p (List.mem_append_right _ (List.mem_singleton_self p)))

theorem createdChains_source {g : String} {paths : List String} :
    ∀ c ∈ createdChains g paths,
      ∃ p ∈ paths, ∃ k, k < (chainOf p).length ∧ c = (chainOf p).take (k + 1) := by
  induction paths using List.reverseRecOn with
  | nil => intro c hc; simp [createdChains] at hc
  | append_singleton ps p ih =>
    intro c hc
    rw [createdChains_concat] at hc
    rcases List.mem_append.mp hc with hc | hc
    · obtain ⟨q, hq, k, hk, he⟩ := ih c hc
      exact ⟨q, List.mem_append_left _ hq, k, hk, he⟩
    · obtain ⟨k, hk, he⟩ := mem_prefixesOf.mp (newChains_sub hc)
      exact ⟨p, List.mem_append_right _ (List.mem_singleton_self p), k, hk, he⟩

theorem createdChains_ids_nodup (g : String) (paths : List String) :
    ((createdChains g paths).map (idOfChain g)).Nodup := by
  induction paths using List.reverseRecOn with
  | nil => simp [createdChains]
  | append_singleton ps p ih =>
    rw [createdChains_concat, List.map_append]
    refine List.nodup_append.mpr ⟨ih, newChains_ids_nodup g p _, ?_⟩
    intro a ha hb
    obtain ⟨c, hc, rfl⟩ := List.mem_map.mp hb
    exact newChains_not_created hc ha

theorem createdChains_complete {g : String} {paths : List String}
    (h : ∀ p ∈ paths, SegsOK (chainOf p)) :
    ∀ p ∈ paths, ∀ k, k < (chainOf p).length →
      (chainOf p).take (k + 1) ∈ createdChains g paths := by
  induction paths using List.reverseRecOn with
  | nil => intro p hp; simp at hp
  | append_singleton ps q ih =>
    intro p hp k hk
    rw [createdChains_concat]
    rcases List.mem_append.mp hp with hp | hp
    · exact List.mem_append_left _
        (ih (fun r hr => h r (List.mem_append_left _ hr)) p hp k hk)
    · rw [List.mem_singleton.mp hp]
      rw [List.mem_singleton.mp hp] at hk
      set c := (chainOf q).take (k + 1) with hc
      have hcp : c ∈ prefixesOf (chainOf q) := mem_prefixesOf.mpr ⟨k, hk, rfl⟩
      by_cases hmem : idOfChain g c ∈ (createdChains g ps).map (idOfChain g)
      · obtain ⟨c', hc', he⟩ := List.mem_map.mp hmem
        have hsq : SegsOK c := prefixesOf_segs hcp
          (h q (List.mem_append_right _ (List.mem_singleton_self q)))
        have hsc' : SegsOK c' := createdChains_segs
          (fun r hr => h r (List.mem_append_left _ hr)) c' hc'
        have : c' = c := idOfChain_inj hsc' hsq he
        exact List.mem_append_left _ (this ▸ hc')
      · exact List.mem_append_right _ (not_created_mem hcp hmem)

theorem createdChains_prefix_closed {g : String} {paths : List String}
    (h : ∀ p ∈ paths, SegsOK (chainOf p)) :
    ∀ c ∈ createdChains g paths, ∀ m, 0 < m → m < c.length →
      c.take m ∈ createdChains g paths := by
  intro c hc m hm hmlt
  obtain ⟨p, hp, k, hk, rfl⟩ := createdChains_source c hc
  have hlen : ((chainOf p).take (k + 1)).length = k + 1 := by
    rw [List.length_take]; omega
  rw [hlen] at hmlt
  have htake : ((chainOf p).take (k + 1)).take m = (chainOf p).take m := by
    rw [List.take_take, Nat.min_eq_left (by omega)]
  rw [htake]
  have hm1 : m = (m - 1) + 1 := by omega
  rw [hm1]
  exact createdChains_complete h p hp (m - 1) (by omega)

/-- No element of the ghost trace is a proper prefix of an earlier one:
parents are always emitted before their children. -/
theorem createdChains_order {g : String} {paths : List String}
    (h : ∀ p ∈ paths, SegsOK (chainOf p)) :
    (createdChains g paths).Pairwise fun a b => ¬(b <+: a ∧ b.length < a.length) := by
  induction paths using List.reverseRecOn with
  | nil => simp [createdChains]
  | append_singleton ps p ih =>
    rw [createdChains_concat]
    refine List.pairwise_append.mpr
      ⟨ih (fun r hr => h r (List.mem_append_left _ hr)), ?_, ?_⟩
    · refine (newChains_pairwise g p _).imp ?_
      intro a b hab hba
      omega
    · intro a ha b hb hba
      obtain ⟨hpre, hlt⟩ := hba
      have hbpos : 0 < b.length := by
        have := prefixesOf_ne_nil (newChains_sub hb)
        cases b with
        | nil => exact absurd rfl this
        | cons x xs => simp
      have hbtake : b = a.take b.length := List.prefix_iff_eq_take.mp hpre
      have hbS : b ∈ createdChains g ps := by
        rw [hbtake]
        exact createdChains_prefix_closed
          (fun r hr => h r (List.mem_append_left _ hr)) a ha b.length hbpos hlt
      exact newChains_not_created hb (List.mem_map_of_mem (idOfChain g) hbS)

theorem guardStmt_inj {g : String} {c c' : List String}
    (h : guardStmt g c = guardStmt g c') : c = c' := by
  unfold guardStmt guardExpr at h
  injection h with h1
  injection h1 with h2 h3
  exact exprOfChain_inj h2

theorem trace_get?_of_guard {g : String} {S : List (List String)} {i : Nat}
    {c : List String}
    (hi : (S.map (guardStmt g)).get? i = some (guardStmt g c)) :
    S.get? i = some c := by
  rw [List.get?_map] at hi
  cases hS : S.get? i with
  | none => rw [hS] at hi; simp at hi
  | some c1 =>
    rw [hS] at hi
    simp only [Option.map_some'] at hi
    have := guardStmt_inj (Option.some.inj hi)
    rw [this]

theorem prefix_length_lt_of_ne {c c' : List String} (hp : c <+: c')
    (hne : c ≠ c') : c.length < c'.length := by
  have hle := hp.length_le
  rcases Nat.lt_or_ge c.length c'.length with hlt | hge
  · exact hlt
  · exfalso
    have heq : c.length = c'.length := by omega
    have := List.prefix_iff_eq_take.mp hp
    rw [heq, List.take_length] at this
    exact hne this

/-- C2. Within one file's transform, for every sequence of ensure-create
(namespace-creation) requests over possibly overlapping dotted prefixes
(module paths whose directory segments are identifier-safe, i.e. dot-free),
the statements accumulated by `V2.ensureCreated` satisfy: (1) each chain
prefix of a request receives exactly one initialization statement, of the
guarded form `prefix = prefix || {}` (`guardStmt`); (2) every emitted
statement is such an initialization of a chain prefix of some request; and
(3) every statement initializing a prefix appears strictly before any
statement initializing a deeper prefix (parents before children,
root-to-leaf). -/
theorem c2_ensure_create_unique_and_ordered (g : String) (paths : List String)
    (h : ∀ p ∈ paths, SegsOK (chainOf p)) :
    (∀ p ∈ paths, ∀ k, k < (chainOf p).length →
      ∃! i : Nat, (runAdds g paths).2.get? i =
        some (guardStmt g ((chainOf p).take (k + 1)))) ∧
    (∀ st ∈ (runAdds g paths).2, ∃ p ∈ paths, ∃ k, k < (chainOf p).length ∧
      st = guardStmt g ((chainOf p).take (k + 1))) ∧
    (∀ p ∈ paths, ∀ p' ∈ paths, ∀ k k', k < (chainOf p).length →
      k' < (chainOf p').length →
      (chainOf p).take (k + 1) <+: (chainOf p').take (k' + 1) →
      (chainOf p).take (k + 1) ≠ (chainOf p').take (k' + 1) →
      ∀ i j,
        (runAdds g paths).2.get? i = some (guardStmt g ((chainOf p).take (k + 1))) →
        (runAdds g paths).2.get? j = some (guardStmt g ((chainOf p').take (k' + 1))) →
        i < j) := by
  have hout : (runAdds g paths).2 = (createdChains g paths).map (guardStmt g) := by
    rw [runAdds_eq]
  have hnodup : (createdChains g paths).Nodup :=
    (createdChains_ids_nodup g paths).of_map (idOfChain g)
  refine ⟨?_, ?_, ?_⟩
  · intro p hp k hk
    have hcS : (chainOf p).take (k + 1) ∈ createdChains g paths :=
      createdChains_complete h p hp k hk
    obtain ⟨i, hi⟩ := List.mem_iff_get?.mp hcS
    refine ⟨i, ?_, ?_⟩
    · show (runAdds g paths).2.get? i =
        some (guardStmt g ((chainOf p).take (k + 1)))
      rw [hout, List.get?_map, hi]
      rfl
    · intro j hj
      rw [hout] at hj
      have hSj := trace_get?_of_guard hj
      have hilen : i < (createdChains g paths).length :=
        (List.get?_eq_some.mp hi).1
      exact (List.get?_inj hilen hnodup (hi.trans hSj.symm)).symm
  · intro st hst
    rw [hout] at hst
    obtain ⟨c, hc, rfl⟩ := List.mem_map.mp hst
    obtain ⟨p, hp, k, hk, rfl⟩ := createdChains_source c hc
    exact ⟨p, hp, k, hk, rfl⟩
  · intro p hp p' hp' k k' hk hk' hpre hne i j hi hj
    rw [hout] at hi hj
    have hSi := trace_get?_of_guard hi
    have hSj := trace_get?_of_guard hj
    have hilen : i < (createdChains g paths).length := (List.get?_eq_some.mp hSi).1
    have hjlen : j < (createdChains g paths).length := (List.get?_eq_some.mp hSj).1
    have horder := @createdChains_order g paths h
    rcases Nat.lt_trichotomy i j with hlt | heq | hgt
    · exact hlt
    · exfalso
      rw [heq, hSj] at hSi
      exact hne (Option.some.inj hSi).symm
    · exfalso
      have hpair := List.pairwise_iff_get.mp horder ⟨j, hjlen⟩ ⟨i, hilen⟩ hgt
      have hgetj : (createdChains g paths).get ⟨j, hjlen⟩ =
          (chainOf p').take (k' + 1) := by
        have := List.get?_eq_get hjlen
        rw [this] at hSj
        exact Option.some.inj hSj
      have hgeti : (createdChains g paths).get ⟨i, hilen⟩ =
          (chainOf p).take (k + 1) := by
        have := List.get?_eq_get hilen
        rw [this] at hSi
        exact Option.some.inj hSi
      rw [hgetj, hgeti] at hpair
      exact hpair ⟨hpre, prefix_length_lt_of_ne hpre hne⟩

/-- Witness for C2 at the concrete overlapping requests `foo/bar` and
`foo/baz/qux` under the root `myGlobal`. -/
theorem c2_ensure_create_unique_and_ordered_witness :
    (∀ p ∈ ["foo/bar", "foo/baz/qux"], SegsOK (chainOf p)) ∧
    ((∀ p ∈ ["foo/bar", "foo/baz/qux"], ∀ k, k < (chainOf p).length →
      ∃! i : Nat, (runAdds "myGlobal" ["foo/bar", "foo/baz/qux"]).2.get? i =
        some (guardStmt "myGlobal" ((chainOf p).take (k + 1)))) ∧
    (∀ st ∈ (runAdds "myGlobal" ["foo/bar", "foo/baz/qux"]).2,
      ∃ p ∈ ["foo/bar", "foo/baz/qux"], ∃ k, k < (chainOf p).length ∧
        st = guardStmt "myGlobal" ((chainOf p).take (k + 1))) ∧
    (∀ p ∈ ["foo/bar", "foo/baz/qux"], ∀ p' ∈ ["foo/bar", "foo/baz/qux"],
      ∀ k k', k < (chainOf p).length → k' < (chainOf p').length →
      (chainOf p).take (k + 1) <+: (chainOf p').take (k' + 1) →
      (chainOf p).take (k + 1) ≠ (chainOf p').take (k' + 1) →
      ∀ i j,
        (runAdds "myGlobal" ["foo/bar", "foo/baz/qux"]).2.get? i =
          some (guardStmt "myGlobal" ((chainOf p).take (k + 1))) →
        (runAdds "myGlobal" ["foo/bar", "foo/baz/qux"]).2.get? j =
          some (guardStmt "myGlobal" ((chainOf p').take (k' + 1))) →
        i < j)) := by
  refine ⟨?_, c2_ensure_create_unique_and_ordered "myGlobal"
    ["foo/bar", "foo/baz/qux"] ?_⟩ <;>
  · intro p hp
    fin_cases hp <;> decide

/-- C1. For a file `foo/bar.js` whose body is `export default foo;`,
transformed with namespace root `myGlobal` (file identity
`/cwd/foo/bar.js`, process root `/cwd`), the statements produced inside the
closure wrapper are exactly the guarded initialization
`this.myGlobal.foo = this.myGlobal.foo || {}` followed by the assignment
`this.myGlobal.foo.bar = foo;` (the `this.`-prefixed member accesses are
how the namespace root is addressed inside the wrapper). -/
theorem c1_export_default_roundtrip (st : V2.St) :
    V2.transformFile st ⟨"/cwd/foo/bar.js", "/cwd", "myGlobal", []⟩
      [.exportDefaultC (.ident "foo")] =
    .ok (⟨["this.myGlobal.foo", "this.myGlobal.foo.bar"], some "bar"⟩,
      [wrapStmt
        [.exprStmt (.assign
            (.member (.member .thisE (.ident "myGlobal") false) (.ident "foo") false)
            (.logical "||"
              (.member (.member .thisE (.ident "myGlobal") false) (.ident "foo") false)
              .objectE)),
         .exprStmt (.assign (.ident "this.myGlobal.foo.bar") (.ident "foo"))]]) :=
  rfl

/-- C6. For a file `foo/bar.js` containing
`import {foo, bar} from "./foo"`, the transform produces exactly two local
variable bindings, in source order, initialized to reads of
`this.myGlobal.foo.foo.foo` and `this.myGlobal.foo.foo.bar` respectively,
and the import emits no namespace-creation statements and leaves the
created-globals set untouched (reads never create). -/
theorem c6_named_import_bindings (st : V2.St) :
    V2.transformFile st
      ⟨"/cwd/foo/bar.js", "/cwd", "myGlobal", [("external-module", "ExternalModule")]⟩
      [.importC [⟨"foo", some "foo", false⟩, ⟨"bar", some "bar", false⟩] "./foo"] =
    .ok (⟨[], none⟩,
      [wrapStmt
        [.varDecl "foo" (.ident "this.myGlobal.foo.foo.foo"),
         .varDecl "bar" (.ident "this.myGlobal.foo.foo.bar")]]) :=
  rfl

/-- C7. An import whose source matches the External-Module Map entry
`"external-module" -> "ExternalModule"` binds to the expression
`this.ExternalModule["default"] || this.ExternalModule` (the external
global's `default` property if truthy, otherwise the external global
itself).  The first conjunct holds for *every* file identity and process
root — including the `'unknown'` filename, on which the path-based
`buildModuleIdentifier` resolution always fails — so the Path Namer's
filesystem-based resolution is never invoked for such an import. -/
theorem c7_external_module_binding :
    (∀ filename cwd : String, ∀ name : Option String, ∀ w : Bool,
      V2.getGlobalIdentifier
        ⟨filename, cwd, "myGlobal", [("external-module", "ExternalModule")]⟩
        "external-module" name w =
      .ok (.logical "||"
        (.member (.member .thisE (.ident "ExternalModule") false)
          (.strLit "default") true)
        (.member .thisE (.ident "ExternalModule") false))) ∧
    (∀ st : V2.St,
      V2.transformFile st
        ⟨"/cwd/foo/bar.js", "/cwd", "myGlobal", [("external-module", "ExternalModule")]⟩
        [.importC [⟨"foo", none, false⟩] "external-module"] =
      .ok (⟨[], none⟩,
        [wrapStmt
          [.varDecl "foo" (.logical "||"
            (.member (.member .thisE (.ident "ExternalModule") false)
              (.strLit "default") true)
            (.member .thisE (.ident "ExternalModule") false))]])) :=
  ⟨fun _ _ _ _ => rfl, fun _ => rfl⟩

/-- C9. For every input file, the `Program` visitor replaces the
top-level statement list with exactly one statement: an immediately
invoked, parameterless function expression invoked with the enclosing
`this` as receiver (`(function () { ... }).call(this)`), whose body holds
the original statements unchanged and in order. -/
theorem c9_program_wrapper (st : V1.St) (body : List Stmt) :
    (V1.program st body).2.length = 1 ∧
    (V1.program st body).2 =
      [.exprStmt (.call
        (.member (.functionE [] body) (.ident "call") false)
        [.ident "this"])] ∧
    unwrapProgram (V1.program st body).2 = some body :=
  ⟨rfl, rfl, rfl⟩

/-- C10. The missing-file-identity check raises its error if and only
if the filename is exactly the literal string `'unknown'`; any other
filename value — including `undefined`, `null` and the empty string —
passes the check without raising. -/
theorem c10_filename_check_iff :
    assertFilenameRequiredJV (.str "unknown") = .error filenameRequiredMsg ∧
    assertFilenameRequiredJV .undef = .ok () ∧
    assertFilenameRequiredJV .null = .ok () ∧
    assertFilenameRequiredJV (.str "") = .ok () ∧
    (∀ f : JVal, f ≠ .str "unknown" → assertFilenameRequiredJV f = .ok ()) := by
  refine ⟨rfl, rfl, rfl, rfl, ?_⟩
  intro f hf
  unfold assertFilenameRequiredJV
  rw [if_neg hf]

/-- Witness for C10's universally quantified conjunct at the concrete
filename `"foo.js"`. -/
theorem c10_filename_check_iff_witness :
    (JVal.str "foo.js" ≠ JVal.str "unknown") ∧
    assertFilenameRequiredJV (.str "foo.js") = .ok () :=
  ⟨by decide, c10_filename_check_iff.2.2.2.2 (.str "foo.js") (by decide)⟩

/-- C5. When the `transformOnlyModules` option is true, a file whose
top-level statement list contains no import/export construct is left
byte-identical: no closure wrapping is applied, the statement list is
unchanged, and the per-file state is not even reset.  (Modelled from the
spec — see `programTransformOnlyModules`.) -/
theorem c5_transform_only_modules (st : V2.St) (body : List Stmt)
    (h : hasModuleConstruct body = false) :
    programTransformOnlyModules true st body = (st, body) := by
  unfold programTransformOnlyModules
  rw [h]
  rfl

/-- Witness for C5 at the module-free body `var a = 2;`. -/
theorem c5_transform_only_modules_witness :
    hasModuleConstruct [Stmt.varDecl "a" (.numLit 2)] = false ∧
    programTransformOnlyModules true ⟨[], none⟩ [Stmt.varDecl "a" (.numLit 2)] =
      (⟨[], none⟩, [Stmt.varDecl "a" (.numLit 2)]) :=
  ⟨rfl, c5_transform_only_modules ⟨[], none⟩ [Stmt.varDecl "a" (.numLit 2)] rfl⟩

theorem exceptError_bind {ε α β : Type} (e : ε) (f : α → Except ε β) :
    (Except.error e >>= f) = Except.error e :=
  rfl

theorem exceptOk_bind {ε α β : Type} (a : α) (f : α → Except ε β) :
    (Except.ok a >>= f : Except ε β) = f a :=
  rfl

theorem v1_getGlobalIdentifier_unknown (gno : V1.GlobalNameOpt)
    (fp : String) (n : Option String) (w : Bool) :
    V1.getGlobalIdentifier ⟨"unknown", gno⟩ fp n w = .error filenameRequiredMsg :=
  rfl

theorem getFilenameNoExt_unknown (cache : Option String) :
    getFilenameNoExt cache "unknown" = .error filenameRequiredMsg ∨
    ∃ c, getFilenameNoExt cache "unknown" = .ok (cache, c) := by
  unfold getFilenameNoExt
  by_cases hc : cache.getD "" = ""
  · rw [if_pos hc]
    left
    rfl
  · rw [if_neg hc]
    right
    exact ⟨_, rfl⟩

/-- C3, amended. When the current file's identity is the absent-marker
`'unknown'`, every import with at least one specifier, every default
export, and every named export carrying a declaration or at least one
specifier fails with the missing-file-identity error, and on that failure
path no replacement statements are produced (the visitors throw before
`replaceWithMultiple` is reached, so the original construct is not
replaced).  Side-effect-only imports, `export *`, and empty named exports
are the exceptions the code admits: they succeed and simply drop the
construct. -/
theorem c3_missing_filename_fails_amended (gno : V1.GlobalNameOpt) (st : V1.St) :
    (∀ (specs : List ImportSpec) (src : String), specs ≠ [] →
      V1.importDeclaration ⟨"unknown", gno⟩ st specs src =
        .error filenameRequiredMsg) ∧
    (∀ d : Expr,
      V1.exportDefaultDeclaration ⟨"unknown", gno⟩ st d =
        .error filenameRequiredMsg) ∧
    (∀ (decl : Option Decl) (specs : List NamedSpec) (src : Option String),
      (match decl with
       | some (.varD ns) => ns ≠ []
       | some (.fnD _) => True
       | none => specs ≠ []) →
      V1.exportNamedDeclaration ⟨"unknown", gno⟩ st decl specs src =
        .error filenameRequiredMsg) := by
  refine ⟨?_, ?_, ?_⟩
  · intro specs src hne
    cases specs with
    | nil => exact absurd rfl hne
    | cons s rest => rfl
  · intro d
    unfold V1.exportDefaultDeclaration
    rcases getFilenameNoExt_unknown st.cache with h | ⟨c, h⟩ <;> rw [h] <;> rfl
  · intro decl specs src hne
    match decl, hne with
    | some (.varD ns), hne =>
      cases ns with
      | nil => exact absurd rfl hne
      | cons n rest =>
        rcases getFilenameNoExt_unknown st.cache with h | ⟨c, h⟩ <;>
          simp [V1.exportNamedDeclaration, V1.assignDeclarationToGlobal, h,
            v1_getGlobalIdentifier_unknown, exceptError_bind, exceptOk_bind]
    | some (.fnD n), _ =>
      rcases getFilenameNoExt_unknown st.cache with h | ⟨c, h⟩ <;>
        simp [V1.exportNamedDeclaration, V1.assignDeclarationToGlobal, h,
          v1_getGlobalIdentifier_unknown, exceptError_bind, exceptOk_bind]
    | none, hne =>
      cases specs with
      | nil => exact absurd rfl hne
      | cons s rest =>
        cases src with
        | some srcv =>
          simp [V1.exportNamedDeclaration, V1.exportSpecifierStep,
            v1_getGlobalIdentifier_unknown, exceptError_bind, exceptOk_bind]
        | none =>
          rcases getFilenameNoExt_unknown st.cache with h | ⟨c, h⟩ <;>
            simp [V1.exportNamedDeclaration, V1.exportSpecifierStep, h,
              v1_getGlobalIdentifier_unknown, exceptError_bind, exceptOk_bind]

/-- Witness for C3's amended statement: with the `'unknown'` filename, a
one-specifier import, a default export, and a one-declarator named export
each fail with the missing-file-identity error. -/
theorem c3_missing_filename_fails_amended_witness :
    V1.importDeclaration ⟨"unknown", .str "myGlobal"⟩ ⟨[], none⟩
      [⟨"foo", some "foo", false⟩] "./foo" = .error filenameRequiredMsg ∧
    V1.exportDefaultDeclaration ⟨"unknown", .str "myGlobal"⟩ ⟨[], none⟩
      (.ident "foo") = .error filenameRequiredMsg ∧
    V1.exportNamedDeclaration ⟨"unknown", .str "myGlobal"⟩ ⟨[], none⟩
      (some (.varD ["x"])) [] none = .error filenameRequiredMsg :=
  ⟨(c3_missing_filename_fails_amended (.str "myGlobal") ⟨[], none⟩).1
      [⟨"foo", some "foo", false⟩] "./foo" (by simp),
   (c3_missing_filename_fails_amended (.str "myGlobal") ⟨[], none⟩).2.1
      (.ident "foo"),
   (c3_missing_filename_fails_amended (.str "myGlobal") ⟨[], none⟩).2.2
      (some (.varD ["x"])) [] none (by simp)⟩

/-- Counterexample to C3 as stated: with the `'unknown'` filename, a
side-effect-only import (`import "./foo"`, no specifiers) and an
`export * from "x"` are transform attempts on import/export constructs
that do **not** fail — they succeed and replace the construct with no
statements at all. -/
theorem c3_missing_filename_counterexample :
    V1.importDeclaration ⟨"unknown", .str "myGlobal"⟩ ⟨[], none⟩ [] "./foo" =
      .ok (⟨[], none⟩, []) ∧
    V1.exportAllDeclaration ⟨"unknown", .str "myGlobal"⟩ ⟨[], none⟩ (some "x") =
      .ok (⟨[], none⟩, []) :=
  ⟨rfl, rfl⟩

theorem c4_fold_step (rest : List NamedSpec) : ∀ nodes : List Stmt,
    List.foldlM
      (V1.exportSpecifierStep
        ⟨"/cwd/foo/bar.js", .fn fun _ _ _ => "this.Test.Exports.same"⟩ none)
      (some "bar", [["Exports"]], nodes) rest =
    .ok (some "bar", [["Exports"]],
      nodes ++ rest.map fun s =>
        Stmt.exprStmt (.assign (.ident "this.Test.Exports.same")
          (.ident s.exported))) := by
  induction rest with
  | nil =>
    intro nodes
    simp only [List.foldlM_nil, List.map_nil, List.append_nil]
    rfl
  | cons s rest ih =>
    intro nodes
    rw [List.foldlM_cons]
    have hstep : V1.exportSpecifierStep
        ⟨"/cwd/foo/bar.js", .fn fun _ _ _ => "this.Test.Exports.same"⟩ none
        (some "bar", [["Exports"]], nodes) s =
        .ok (some "bar", [["Exports"]],
          (nodes ++ []) ++ [Stmt.exprStmt (.assign (.ident "this.Test.Exports.same")
            (.ident s.exported))]) := rfl
    rw [hstep, exceptOk_bind, ih]
    simp

/-- C4, amended. In `src/index.js`, assignment statements are never
deduplicated: for every named-export construct, each specifier's
assignment statement is emitted — here every specifier is routed by a
constant `globalName` function to the *same* global path
`this.Test.Exports.same`, and the output still carries one assignment per
specifier in source order (only the namespace-prefix creation
`this.Test.Exports = {}` is emitted once).  In the `part_000` variant the
claim fails: its `assignToGlobal` skips any assignment whose target id is
already recorded in the created-globals set (see the counterexample). -/
theorem c4_assignments_not_deduplicated (specs : List NamedSpec) :
    (V1.exportNamedDeclaration
      ⟨"/cwd/foo/bar.js", .fn fun _ _ _ => "this.Test.Exports.same"⟩
      ⟨[], none⟩ none specs none).map (fun r => r.2) =
    .ok (match specs with
      | [] => []
      | _ :: _ =>
        Stmt.exprStmt (.assign (.ident "this.Test.Exports") .objectE) ::
          specs.map fun s =>
            Stmt.exprStmt (.assign (.ident "this.Test.Exports.same")
              (.ident s.exported))) := by
  cases specs with
  | nil => rfl
  | cons s rest =>
    unfold V1.exportNamedDeclaration
    rw [List.foldlM_cons]
    have hstep : V1.exportSpecifierStep
        ⟨"/cwd/foo/bar.js", .fn fun _ _ _ => "this.Test.Exports.same"⟩ none
        (none, [], []) s =
        .ok (some "bar", [["Exports"]],
          [Stmt.exprStmt (.assign (.ident "this.Test.Exports") .objectE),
           Stmt.exprStmt (.assign (.ident "this.Test.Exports.same")
             (.ident s.exported))]) := rfl
    rw [hstep, exceptOk_bind, c4_fold_step]
    simp [exceptOk_bind]
    rfl

/-- Counterexample to C4 as stated: in one file (`foo/bar.js`, root
`myGlobal`, `part_000` variant) the construct `export {a}` emits the module
object assignment `this.myGlobal.foo.bar = {}` and the member assignment,
but the next construct `export {b}` in the same file emits **only**
`this.myGlobal.foo.bar.b = b` — its own `this.myGlobal.foo.bar = {}`
assignment is skipped because that target id was already recorded, so an
export site's assignment *is* deduplicated. -/
theorem c4_assignment_dedup_counterexample :
    V2.exportNamedDeclaration ⟨"/cwd/foo/bar.js", "/cwd", "myGlobal", []⟩
      ⟨[], none⟩ none [⟨some "a", "a"⟩] none =
    .ok (⟨["this.myGlobal.foo", "this.myGlobal.foo.bar",
           "this.myGlobal.foo.bar.a"], some "bar"⟩,
      [.exprStmt (.assign
          (.member (.member .thisE (.ident "myGlobal") false) (.ident "foo") false)
          (.logical "||"
            (.member (.member .thisE (.ident "myGlobal") false) (.ident "foo") false)
            .objectE)),
       .exprStmt (.assign (.ident "this.myGlobal.foo.bar") .objectE),
       .exprStmt (.assign (.ident "this.myGlobal.foo.bar.a") (.ident "a"))]) ∧
    V2.exportNamedDeclaration ⟨"/cwd/foo/bar.js", "/cwd", "myGlobal", []⟩
      ⟨["this.myGlobal.foo", "this.myGlobal.foo.bar",
        "this.myGlobal.foo.bar.a"], some "bar"⟩ none [⟨some "b", "b"⟩] none =
    .ok (⟨["this.myGlobal.foo", "this.myGlobal.foo.bar",
           "this.myGlobal.foo.bar.a", "this.myGlobal.foo.bar.b"], some "bar"⟩,
      [.exprStmt (.assign (.ident "this.myGlobal.foo.bar.b") (.ident "b"))]) :=
  ⟨rfl, rfl⟩

/-- Counterexample to C8 as stated: the `babel.Transformer` variant's
`Program` visitor does not reset the per-file state, so after transforming
`/cwd/foo/bar.js` the cached stripped filename leaks into the transform of
`/cwd/baz/qux.js`, whose `export default foo` then assigns
`this.myGlobal.bar` instead of `this.myGlobal.qux` — the second file's
output differs from what it would be if it were transformed first. -/
theorem c8_transformer_state_leak_counterexample :
    (V3.transformExportDefaultFile
      (V3.transformExportDefaultFile ⟨[], none⟩ ⟨"/cwd/foo/bar.js", "myGlobal"⟩
        (.ident "foo")).1
      ⟨"/cwd/baz/qux.js", "myGlobal"⟩ (.ident "foo")).2 ≠
    (V3.transformExportDefaultFile ⟨[], none⟩ ⟨"/cwd/baz/qux.js", "myGlobal"⟩
      (.ident "foo")).2 := by
  intro h
  have := congrArg assignTargets h
  revert this
  decide

/-- C8, amended. In `src/index.js` the `Program` visitor resets the
created-globals set and the cached stripped filename at the entry of each
file's transform, so the transform of a file is independent of the state
left behind by any previously transformed file: for every two states the
outputs coincide, hence the output produced for the second of two files
transformed in sequence is identical to what it would be if that file were
transformed first.  In the `babel.Transformer` variant of `part_000` no
such reset happens and the state leaks (see the counterexample). -/
theorem c8_no_state_leak_v1_amended (st₁ st₂ : V1.St) (ctx : V1.Ctx)
    (body : List Stmt) :
    V1.transformFile st₁ ctx body = V1.transformFile st₂ ctx body :=
  rfl
